import Mathlib

set_option maxHeartbeats 1000000

/-!
Shallow embedding of the DHT layout-verification core of glusto-tests
(glustolibs-gluster): brickdir.py, glusterfile.py, glusterdir.py,
dht_test_utils.py and exceptions.py.  Strings are modelled as lists of
characters so that the Python slicing used by the source stays explicit;
every remote command is supplied through its observable result (an
oracle argument).
-/

/-- Characters removed by Python str.strip with no argument, by ASCII code:
space, tab, newline, carriage return, vertical tab, form feed. -/
def isPySpace (c : Char) : Bool :=
  c.toNat = 32 || c.toNat = 9 || c.toNat = 10 || c.toNat = 13 ||
    c.toNat = 11 || c.toNat = 12

/-- Python str.strip: remove leading and trailing whitespace. -/
def pyStrip (l : List Char) : List Char :=
  ((l.dropWhile isPySpace).reverse.dropWhile isPySpace).reverse

/-- Python slice s[-n:] for n greater than 0: the trailing n characters,
or the whole string when it is shorter than n. -/
def takeLast (n : Nat) (l : List Char) : List Char :=
  l.drop (l.length - n)

/-- Hexadecimal digit test, by ASCII code ranges 0-9, a-f, A-F. -/
def isHexDigitB (c : Char) : Bool :=
  (48 ≤ c.toNat && c.toNat ≤ 57) || (97 ≤ c.toNat && c.toNat ≤ 102) ||
    (65 ≤ c.toNat && c.toNat ≤ 70)

/-- Value of one hexadecimal digit, by ASCII code; 0 on a non-hex character
(total companion of the checked parser below, which rejects such input). -/
def hexDigitVal (c : Char) : Nat :=
  if 48 ≤ c.toNat ∧ c.toNat ≤ 57 then c.toNat - 48
  else if 97 ≤ c.toNat ∧ c.toNat ≤ 102 then c.toNat - 97 + 10
  else if 65 ≤ c.toNat ∧ c.toNat ≤ 70 then c.toNat - 65 + 10
  else 0

/-- Accumulator form of hexadecimal evaluation. -/
def hexValAux (acc : Nat) : List Char → Nat
  | [] => acc
  | c :: t => hexValAux (16 * acc + hexDigitVal c) t

/-- Numeric value of a hexadecimal digit string. -/
def hexVal (l : List Char) : Nat := hexValAux 0 l

/-- Models Python int(s, 16) on plain hexadecimal-digit strings: the value on
a nonempty all-hex string, failure (ValueError) on the empty string or on any
non-hex character. -/
def hexParse? (l : List Char) : Option Nat :=
  if l ≠ [] ∧ l.all isHexDigitB then some (hexVal l) else none

/-- Python runtime errors that the embedded code can raise: ValueError from
int conversion, TypeError from subscripting None. -/
inductive PyErr where
  | valueError
  | typeError
  deriving DecidableEq

/-- Embeds get_hashrange (brickdir.py).  The remote getfattr pipeline is
supplied through its observable result: the command's return code rcode and
its output rout.  On rcode 0 the trailing 16 characters of the stripped
output are split into two 8-character hex words; on a nonzero rcode the
Python function returns None, modelled as .ok none. -/
def get_hashrange (rcode : Nat) (rout : List Char) : Except PyErr (Option (Nat × Nat)) :=
  let full_hash_hex := pyStrip rout
  if rcode = 0 then
    let trailing_hash_hex := takeLast 16 full_hash_hex
    match hexParse? (trailing_hash_hex.take 8), hexParse? (takeLast 8 trailing_hash_hex) with
    | some hash_range_low, some hash_range_high =>
        .ok (some (hash_range_low, hash_range_high))
    | _, _ => .error .valueError
  else
    .ok none

/-- Mutable state of a BrickDir instance (brickdir.py): the lazily cached
hashrange tuple and its low/high fields, plus an instrumentation count of
remote fetches performed so far (used to index the fetch oracle). -/
structure BrickDirState where
  hashrange      : Option (Nat × Nat)
  hashrange_low  : Option Nat
  hashrange_high : Option Nat
  fetches        : Nat
  deriving DecidableEq

/-- A freshly constructed BrickDir: all three cached fields are None. -/
def brickDirInit : BrickDirState := ⟨none, none, none, 0⟩

/-- Embeds BrickDir._get_hashrange.  fetch k is the observable (rcode, rout)
pair of the k-th remote getfattr command this instance runs.  When
get_hashrange returns None, the subsequent subscript of self._hashrange
raises TypeError; a ValueError from the hex conversion propagates. -/
def brickdir_get_hashrange (fetch : Nat → Nat × List Char) (s : BrickDirState) :
    Except PyErr BrickDirState :=
  match get_hashrange (fetch s.fetches).1 (fetch s.fetches).2 with
  | .error e => .error e
  | .ok none => .error .typeError
  | .ok (some (l, h)) =>
      .ok { hashrange := some (l, h), hashrange_low := some l,
            hashrange_high := some h, fetches := s.fetches + 1 }

/-- Embeds the BrickDir.hashrange property: fetch on first access (cached
tuple still None), cached afterwards; returns the (low, high) field pair. -/
def brickdir_hashrange (fetch : Nat → Nat × List Char) (s : BrickDirState) :
    Except PyErr (BrickDirState × (Option Nat × Option Nat)) :=
  match s.hashrange with
  | none =>
      match brickdir_get_hashrange fetch s with
      | .error e => .error e
      | .ok s1 => .ok (s1, (s1.hashrange_low, s1.hashrange_high))
  | some _ => .ok (s, (s.hashrange_low, s.hashrange_high))

/-- Embeds BrickDir.resync_hashrange: reset the three cached fields to None,
then fetch afresh. -/
def resync_hashrange (fetch : Nat → Nat × List Char) (s : BrickDirState) :
    Except PyErr BrickDirState :=
  brickdir_get_hashrange fetch
    { hashrange := none, hashrange_low := none, hashrange_high := none,
      fetches := s.fetches }

/-- Embeds BrickDir.hashrange_contains_hash once the range is resolved (the
lazy resolution itself is modelled by brickdir_hashrange): inclusive
comparison at both endpoints. -/
def hashrange_contains_hash (hashrange_low hashrange_high filehash : Nat) : Bool :=
  if hashrange_low ≤ filehash ∧ filehash ≤ hashrange_high then true else false

/-- A state holding a resolved hash range, as left behind by a successful
fetch that was the n-th remote command of the instance. -/
def brickDirResolved (l h n : Nat) : BrickDirState :=
  ⟨some (l, h), some l, some h, n⟩

/-- Character list of a string literal. -/
def strL (s : String) : List Char := s.data

/-- A brick directory of a parent layout with its hash range already
resolved, as consumed by GlusterFile.hashed_bricks through
Layout.brickdirs (the lazy resolution is modelled by brickdir_hashrange). -/
structure ResolvedBrickDir where
  path : List Char
  hashrange_low : Nat
  hashrange_high : Nat
  deriving DecidableEq

/-- Embeds GlusterFile.hashed_bricks (glusterfile.py): collect, in order,
the paths of the bricks of the parent layout whose hash range strictly
contains the calculated hash of the file. -/
def hashed_bricks (calculated_hash : Nat) : List ResolvedBrickDir → List (List Char)
  | [] => []
  | b :: rest =>
      if b.hashrange_low < calculated_hash ∧ calculated_hash < b.hashrange_high then
        b.path :: hashed_bricks calculated_hash rest
      else
        hashed_bricks calculated_hash rest

/-- Python tuple unpacking of brickdir_path.split on the colon for the
two-component host:path case: the part before the first colon and the part
after it. -/
def splitColon (l : List Char) : List Char × List Char :=
  (l.takeWhile (fun c => c ≠ ':'), (l.dropWhile (fun c => c ≠ ':')).drop 1)

/-- Embeds GlusterFile.exists_on_hashed_bricks: the remote existence probe
file_exists(host, fqpath) is supplied as an oracle; flag accumulates
failures through a bitwise or exactly as the source does. -/
def exists_on_hashed_bricks (file_exists_o : List Char → List Char → Bool)
    (calculated_hash : Nat) (brickdirs : List ResolvedBrickDir) : Bool :=
  let flag := (hashed_bricks calculated_hash brickdirs).foldl
    (fun flag p =>
      if file_exists_o (splitColon p).1 (splitColon p).2 then flag else flag ||| 1) 0
  flag == 0

/-- Embeds the exception classes of exceptions.py raised by
dht_test_utils.py; each carries only its message string, as in the source,
where every class stores the single constructor argument as msg. -/
inductive GlusterExc where
  | layoutIsNotComplete (msg : List Char)
  | layoutIsNotBalanced (msg : List Char)
  | fileDoesNotExistOnHashedBricks (msg : List Char)
  deriving DecidableEq

/-- Modelled from the spec: constants.py is not under src; section 6
describes the check selection as a bitmask-like selection of completeness,
balance and hashed-existence checks, so the constant is modelled as a
distinct bit. -/
def TEST_LAYOUT_IS_COMPLETE : Nat := 1

/-- Modelled from the spec: constants.py is not under src; balance bit. -/
def TEST_LAYOUT_IS_BALANCED : Nat := 2

/-- Modelled from the spec: constants.py is not under src;
hashed-existence bit. -/
def TEST_FILE_EXISTS_ON_HASHED_BRICKS : Nat := 4

/-- Modelled from the spec: all test bits or'd together. -/
def TEST_ALL : Nat :=
  TEST_LAYOUT_IS_COMPLETE ||| TEST_LAYOUT_IS_BALANCED |||
    TEST_FILE_EXISTS_ON_HASHED_BRICKS

/-- Modelled from the spec: constants.py is not under src; section 6 has
the file-type selection range over directories and files, so the constant
is modelled as a distinct bit. -/
def FILETYPE_DIR : Nat := 1

/-- Modelled from the spec: constants.py is not under src; file bit. -/
def FILETYPE_FILE : Nat := 2

/-- Modelled from the spec: both file-type bits or'd together. -/
def FILETYPE_ALL : Nat := FILETYPE_DIR ||| FILETYPE_FILE

/-- Modelled from the spec: layout.py is not under src; section 3 gives
LayoutModel the derived booleans isComplete and isBalanced and the derived
fault lists holes and overlaps, which is everything dht_test_utils.py
consumes from a Layout object. -/
structure Layout where
  is_complete : Bool
  is_balanced : Bool
  holes : List (Nat × Nat)
  overlaps : List ((Nat × Nat) × (Nat × Nat))
  deriving DecidableEq

instance : Inhabited Layout := ⟨⟨true, true, [], []⟩⟩

/-- Message built by run_layout_tests for an incomplete layout. -/
def layoutNotCompleteMsg (fqpath : List Char) : List Char :=
  strL "Layout for " ++ fqpath ++ strL " IS NOT COMPLETE"

/-- Message built by run_layout_tests for an unbalanced layout. -/
def layoutNotBalancedMsg (fqpath : List Char) : List Char :=
  strL "Layout for " ++ fqpath ++ strL " IS NOT BALANCED"

/-- Embeds run_layout_tests (dht_test_utils.py): the completeness check
first when its bit is selected, then the balance check when its bit is
selected, True otherwise. -/
def run_layout_tests (fqpath : List Char) (layout : Layout) (test_type : Nat) :
    Except GlusterExc Bool :=
  if test_type &&& TEST_LAYOUT_IS_COMPLETE != 0 && !layout.is_complete then
    .error (.layoutIsNotComplete (layoutNotCompleteMsg fqpath))
  else if test_type &&& TEST_LAYOUT_IS_BALANCED != 0 && !layout.is_balanced then
    .error (.layoutIsNotBalanced (layoutNotBalancedMsg fqpath))
  else
    .ok true

/-- Message built by run_hashed_bricks_test for a misplaced entry. -/
def hashedBricksMsg (fqpath : List Char) : List Char :=
  strL "File/Dir " ++ fqpath ++ strL " DOES NOT EXIST on hashed bricks."

/-- Embeds run_hashed_bricks_test (dht_test_utils.py): the entry's
exists_on_hashed_bricks value is passed in, since it is a remote-dependent
property of the GlusterFile object. -/
def run_hashed_bricks_test (fqpath : List Char) (exists_on_hashed : Bool) :
    Except GlusterExc Bool :=
  if exists_on_hashed then .ok true
  else .error (.fileDoesNotExistOnHashedBricks (hashedBricksMsg fqpath))

/-- Embeds posixpath.join for the two-argument os.path.join calls of
validate_files_in_dir. -/
def pyJoin (a b : List Char) : List Char :=
  if b.head? = some '/' then b
  else if a = [] || a.getLast? = some '/' then a ++ b
  else a ++ '/' :: b

/-- Embeds posixpath.dirname, used by the GlusterFile.parent_dir property:
everything up to the last slash, with trailing slashes of the head removed
unless the head is all slashes. -/
def pyDirname (p : List Char) : List Char :=
  let tailLen := (p.reverse.takeWhile (fun c => c ≠ '/')).length
  let head := p.take (p.length - tailLen)
  if head = [] || head.all (fun c => c = '/') then head
  else (head.reverse.dropWhile (fun c => c = '/')).reverse

/-- One (directory, subdirectories, files) triple of the os.walk stream. -/
structure WalkTriple where
  dirpath : List Char
  subdirs : List (List Char)
  files : List (List Char)

/-- Instrumentation events of one validate_files_in_dir run: a Layout
construction for a parent path, a run_layout_tests invocation for a parent
path, a run_hashed_bricks_test invocation for an entry. -/
inductive Event where
  | constructLayout (parent : List Char)
  | layoutTested (parent : List Char)
  | hashedTested (fqpath : List Char)
  deriving DecidableEq

/-- The traversal-local state of validate_files_in_dir: the layout_cache
dictionary (an association list keyed by parent path) and the event log. -/
structure TravState where
  cache : List (List Char × Layout)
  log : List Event
  deriving DecidableEq

/-- Dictionary lookup in layout_cache. -/
def lookupLayout : List (List Char × Layout) → List Char → Option Layout
  | [], _ => none
  | (k, v) :: rest, p => if k = p then some v else lookupLayout rest p

/-- Embeds the layout_cache block shared by the directory and the file loop
of validate_files_in_dir: return the cached layout of the entry's parent,
or construct it (layoutOf models Layout applied to the parent's pathinfo),
cache it and run the layout tests. -/
def layoutPhase (layoutOf : List Char → Layout) (test_type : Nat)
    (s : TravState) (parent : List Char) : TravState × Option GlusterExc :=
  match lookupLayout s.cache parent with
  | some _ => (s, none)
  | none =>
      let layout := layoutOf parent
      let s1 : TravState :=
        ⟨s.cache ++ [(parent, layout)],
         s.log ++ [Event.constructLayout parent, Event.layoutTested parent]⟩
      match run_layout_tests parent layout test_type with
      | .ok _ => (s1, none)
      | .error e => (s1, some e)

/-- Embeds the hashed-bricks block shared by the two loops of
validate_files_in_dir: run run_hashed_bricks_test for the entry when the
hashed-existence bit is selected. -/
def hashPhase (existsOnHashed : List Char → Bool) (test_type : Nat)
    (s : TravState) (fqpath : List Char) : TravState × Option GlusterExc :=
  if test_type &&& TEST_FILE_EXISTS_ON_HASHED_BRICKS != 0 then
    let s2 : TravState := ⟨s.cache, s.log ++ [Event.hashedTested fqpath]⟩
    match run_hashed_bricks_test fqpath (existsOnHashed fqpath) with
    | .ok _ => (s2, none)
    | .error e => (s2, some e)
  else (s, none)

/-- The loop body of validate_files_in_dir for one entry: layout_cache
handling for the entry's parent directory, then the per-entry hashed test. -/
def checkEntry (layoutOf : List Char → Layout) (existsOnHashed : List Char → Bool)
    (test_type : Nat) (s : TravState) (fqpath : List Char) :
    TravState × Option GlusterExc :=
  match layoutPhase layoutOf test_type s (pyDirname fqpath) with
  | (s1, some e) => (s1, some e)
  | (s1, none) => hashPhase existsOnHashed test_type s1 fqpath

/-- Runs checkEntry over the entries of the walk, stopping at the first
raised exception, as Python exception propagation does. -/
def processEntries (layoutOf : List Char → Layout) (existsOnHashed : List Char → Bool)
    (test_type : Nat) : TravState → List (List Char) → TravState × Option GlusterExc
  | s, [] => (s, none)
  | s, e :: rest =>
      match checkEntry layoutOf existsOnHashed test_type s e with
      | (s1, none) => processEntries layoutOf existsOnHashed test_type s1 rest
      | (s1, some exc) => (s1, some exc)

/-- Entries contributed by one os.walk triple, honoring the file_type bits:
the directory loop over walkies[1], then the file loop over walkies[2],
each entry path being os.path.join(walkies[0], name). -/
def entriesOfTriple (file_type : Nat) (w : WalkTriple) : List (List Char) :=
  (if file_type &&& FILETYPE_DIR != 0 then w.subdirs.map (pyJoin w.dirpath) else []) ++
  (if file_type &&& FILETYPE_FILE != 0 then w.files.map (pyJoin w.dirpath) else [])

/-- All entries visited by one validate_files_in_dir invocation. -/
def walkEntries (file_type : Nat) (walk : List WalkTriple) : List (List Char) :=
  (walk.map (entriesOfTriple file_type)).flatten

/-- Embeds validate_files_in_dir (dht_test_utils.py): a fresh empty
layout_cache per invocation, a traversal of the os.walk stream (supplied as
data, per section 6 of the host-side contract), aborted by the first raised
exception; returns True otherwise.  The instrumentation log of the run is
returned alongside. -/
def validate_files_in_dir (layoutOf : List Char → Layout)
    (existsOnHashed : List Char → Bool) (walk : List WalkTriple)
    (file_type test_type : Nat) : Except GlusterExc Bool × List Event :=
  let r := processEntries layoutOf existsOnHashed test_type ⟨[], []⟩
      (walkEntries file_type walk)
  match r.2 with
  | none => (.ok true, r.1.log)
  | some e => (.error e, r.1.log)

/-- Number of occurrences of an event in a log. -/
def countE (e : Event) : List Event → Nat
  | [] => 0
  | x :: t => (if x = e then 1 else 0) + countE e t

/-- Invariant tying the layout_cache to the event log: a construction event
was logged exactly for the cached parents, and every construction was
immediately followed by a layout-test invocation. -/
def cacheLogInv (s : TravState) : Prop :=
  (∀ p, countE (Event.constructLayout p) s.log =
    if p ∈ s.cache.map Prod.fst then 1 else 0) ∧
  (∀ p, countE (Event.layoutTested p) s.log =
    countE (Event.constructLayout p) s.log)

/-- Concrete two-brick layout data for witnesses: a hole at 100. -/
def demoBricks : List ResolvedBrickDir :=
  [⟨strL "server1:/bricks/b1", 0, 100⟩, ⟨strL "server2:/bricks/b2", 100, 200⟩]

/-- Concrete single-brick list whose range misses the hash 20. -/
def holeBricks : List ResolvedBrickDir := [⟨strL "server1:/bricks/b1", 0, 10⟩]

/-- Concrete incomplete layout with one hole recorded. -/
def layoutA : Layout := ⟨false, true, [(10, 20)], []⟩

/-- Concrete incomplete layout with a different hole recorded. -/
def layoutB : Layout := ⟨false, true, [(30, 40)], []⟩

/-- Concrete complete balanced layout. -/
def layoutOk : Layout := ⟨true, true, [], []⟩

/-- Concrete fetch oracle: the first remote command returns range (1, 255),
every later one returns range (2, 170). -/
def cFetch : Nat → Nat × List Char :=
  fun k => if k = 0 then (0, strL "00000001000000ff") else (0, strL "00000002000000aa")

/-- Concrete layout oracle making every directory incomplete. -/
def cLayoutBad : List Char → Layout := fun _ => layoutA

/-- Concrete layout oracle making every directory pass the tests. -/
def cLayoutGood : List Char → Layout := fun _ => layoutOk

/-- Concrete existence oracle: everything present. -/
def cAllExist : List Char → Bool := fun _ => true

/-- Concrete walk with two nested directories, each a distinct parent. -/
def cWalkTwo : List WalkTriple :=
  [⟨strL "/r", [strL "d1"], []⟩, ⟨strL "/r/d1", [strL "d2"], []⟩]

/-- Concrete walk with one directory triple holding three sibling entries. -/
def cWalkSib : List WalkTriple :=
  [⟨strL "/r", [strL "d1", strL "d2"], [strL "f1"]⟩]

/-! Helper lemmas about the string and hex utilities. -/

theorem hexDigitVal_lt (c : Char) : hexDigitVal c < 16 := by
  unfold hexDigitVal
  split
  · omega
  split
  · omega
  split
  · omega
  · omega

theorem hexValAux_lt (l : List Char) : ∀ a, hexValAux a l < (a + 1) * 16 ^ l.length := by
  induction l with
  | nil =>
      intro a
      simp only [hexValAux, List.length_nil, pow_zero, mul_one]
      omega
  | cons c t ih =>
      intro a
      have hd := hexDigitVal_lt c
      calc hexValAux a (c :: t) = hexValAux (16 * a + hexDigitVal c) t := rfl
        _ < (16 * a + hexDigitVal c + 1) * 16 ^ t.length := ih _
        _ ≤ ((a + 1) * 16) * 16 ^ t.length := by
              apply Nat.mul_le_mul_right
              omega
        _ = (a + 1) * 16 ^ (c :: t).length := by
              rw [List.length_cons, pow_succ]
              ring

theorem hexVal_lt (l : List Char) : hexVal l < 16 ^ l.length := by
  have h := hexValAux_lt l 0
  simpa [hexVal] using h

theorem isPySpace_eq_false_of_hex (c : Char) (h : isHexDigitB c = true) :
    isPySpace c = false := by
  simp only [isHexDigitB, Bool.or_eq_true, Bool.and_eq_true, decide_eq_true_eq] at h
  simp only [isPySpace, Bool.or_eq_false_iff, decide_eq_false_iff_not]
  omega

theorem dropWhile_eq_self_of_all (p : Char → Bool) (l : List Char)
    (h : ∀ c ∈ l, p c = false) : l.dropWhile p = l := by
  cases l with
  | nil => rfl
  | cons a t => simp [List.dropWhile_cons, h a (List.mem_cons_self a t)]

theorem pyStrip_eq_self (l : List Char) (h : ∀ c ∈ l, isPySpace c = false) :
    pyStrip l = l := by
  unfold pyStrip
  rw [dropWhile_eq_self_of_all _ _ h,
    dropWhile_eq_self_of_all _ _ (fun c hc => h c (List.mem_reverse.mp hc)),
    List.reverse_reverse]

theorem hexParse?_eq_some (l : List Char) (hne : l ≠ [])
    (hhex : ∀ c ∈ l, isHexDigitB c = true) : hexParse? l = some (hexVal l) := by
  unfold hexParse?
  rw [if_pos ⟨hne, List.all_eq_true.mpr hhex⟩]

theorem takeLast_of_le (n : Nat) (l : List Char) (h : l.length ≤ n) :
    takeLast n l = l := by
  unfold takeLast
  rw [Nat.sub_eq_zero_of_le h, List.drop_zero]

theorem takeLast_length (n : Nat) (l : List Char) (h : n ≤ l.length) :
    (takeLast n l).length = n := by
  unfold takeLast
  rw [List.length_drop]
  omega

theorem takeLast_takeLast (m n : Nat) (l : List Char) (hmn : m ≤ n)
    (hnl : n ≤ l.length) : takeLast m (takeLast n l) = takeLast m l := by
  unfold takeLast
  rw [List.length_drop, List.drop_drop]
  congr 1
  omega

theorem mem_takeLast (n : Nat) (l : List Char) (a : Char) (h : a ∈ takeLast n l) :
    a ∈ l := by
  unfold takeLast at h
  exact List.drop_subset _ l h

theorem takeLast_ne_nil (n : Nat) (l : List Char) (hn : 0 < n) (hl : l ≠ []) :
    takeLast n l ≠ [] := by
  unfold takeLast
  intro h
  have h1 : l.length ≠ 0 := fun h0 => hl (List.eq_nil_of_length_eq_zero h0)
  have h2 := congrArg List.length h
  rw [List.length_drop] at h2
  simp only [List.length_nil] at h2
  omega

/-! Membership characterization of hashed_bricks, shared by several
theorems below. -/

theorem hashed_bricks_mem (calculated_hash : Nat) (bricks : List ResolvedBrickDir)
    (p : List Char) :
    p ∈ hashed_bricks calculated_hash bricks ↔
      ∃ b, b ∈ bricks ∧ b.path = p ∧ b.hashrange_low < calculated_hash ∧
        calculated_hash < b.hashrange_high := by
  induction bricks with
  | nil => simp [hashed_bricks]
  | cons b rest ih =>
      constructor
      · intro hp
        by_cases hb : b.hashrange_low < calculated_hash ∧ calculated_hash < b.hashrange_high
        · simp only [hashed_bricks, if_pos hb] at hp
          rcases List.mem_cons.mp hp with rfl | hp2
          · exact ⟨b, List.mem_cons_self b rest, rfl, hb.1, hb.2⟩
          · obtain ⟨b2, hb2, hpath, hx1, hx2⟩ := ih.mp hp2
            exact ⟨b2, List.mem_cons_of_mem b hb2, hpath, hx1, hx2⟩
        · simp only [hashed_bricks, if_neg hb] at hp
          obtain ⟨b2, hb2, hpath, hx1, hx2⟩ := ih.mp hp
          exact ⟨b2, List.mem_cons_of_mem b hb2, hpath, hx1, hx2⟩
      · rintro ⟨b2, hb2, hpath, hx1, hx2⟩
        rcases List.mem_cons.mp hb2 with heq | hmem
        · subst heq
          simp only [hashed_bricks]
          rw [if_pos (And.intro hx1 hx2), hpath]
          exact List.mem_cons_self p _
        · have hmem2 := ih.mpr ⟨b2, hmem, hpath, hx1, hx2⟩
          by_cases hb : b.hashrange_low < calculated_hash ∧ calculated_hash < b.hashrange_high
          · simp only [hashed_bricks, if_pos hb]
            exact List.mem_cons_of_mem _ hmem2
          · simp only [hashed_bricks, if_neg hb]
            exact hmem2

theorem hashed_bricks_eq_nil (calculated_hash : Nat) (bricks : List ResolvedBrickDir)
    (hall : ∀ b, b ∈ bricks →
      ¬(b.hashrange_low < calculated_hash ∧ calculated_hash < b.hashrange_high)) :
    hashed_bricks calculated_hash bricks = [] := by
  rw [List.eq_nil_iff_forall_not_mem]
  intro p hp
  obtain ⟨b, hb, _, hx1, hx2⟩ := (hashed_bricks_mem calculated_hash bricks p).mp hp
  exact hall b hb ⟨hx1, hx2⟩

/-- C1: a brick of the parent layout is returned by GlusterFile.hashed_bricks
if and only if its range strictly contains the computed hash (open interval
at both ends); consequently a hash equal to some brick's low or high bound
and strictly inside no range yields an empty owner list. -/
theorem hashed_bricks_strict_interval (bricks : List ResolvedBrickDir) (h : Nat) :
    (∀ p, p ∈ hashed_bricks h bricks ↔
      ∃ b, b ∈ bricks ∧ b.path = p ∧ b.hashrange_low < h ∧ h < b.hashrange_high) ∧
    ((∃ b, b ∈ bricks ∧ (h = b.hashrange_low ∨ h = b.hashrange_high)) →
      (∀ b, b ∈ bricks → ¬(b.hashrange_low < h ∧ h < b.hashrange_high)) →
      hashed_bricks h bricks = []) :=
  ⟨fun p => hashed_bricks_mem h bricks p,
   fun _ hall => hashed_bricks_eq_nil h bricks hall⟩

/-- Witness for C1: with two bricks covering 0-100 and 100-200, the hash 100
sits exactly on a shared boundary and owns no brick. -/
theorem hashed_bricks_strict_interval_witness :
    hashed_bricks 100 demoBricks = [] :=
  (hashed_bricks_strict_interval demoBricks 100).2
    ⟨⟨strL "server1:/bricks/b1", 0, 100⟩, by decide, Or.inr rfl⟩ (by decide)

/-- C9: BrickDir.hashrange_contains_hash is inclusive at both endpoints,
returns True at the exact bounds, and disagrees with the strict ownership
predicate of GlusterFile.hashed_bricks exactly at the range boundaries. -/
theorem hashrange_contains_vs_hashed_bricks (lo hi h : Nat) (p : List Char)
    (hle : lo ≤ hi) :
    (hashrange_contains_hash lo hi h = true ↔ (lo ≤ h ∧ h ≤ hi)) ∧
    hashrange_contains_hash lo hi lo = true ∧
    hashrange_contains_hash lo hi hi = true ∧
    ((hashrange_contains_hash lo hi h = true ∧ hashed_bricks h [⟨p, lo, hi⟩] = []) ↔
      (h = lo ∨ h = hi)) := by
  have hc : ∀ x, hashrange_contains_hash lo hi x = true ↔ (lo ≤ x ∧ x ≤ hi) := by
    intro x
    unfold hashrange_contains_hash
    split
    · rename_i hx
      simp [hx]
    · rename_i hx
      simp [hx]
  have hnil : hashed_bricks h [⟨p, lo, hi⟩] = [] ↔ ¬(lo < h ∧ h < hi) := by
    by_cases hstrict : lo < h ∧ h < hi
    · simp [hashed_bricks, hstrict]
    · simp [hashed_bricks, hstrict]
  refine ⟨hc h, (hc lo).mpr ⟨le_refl lo, hle⟩, (hc hi).mpr ⟨hle, le_refl hi⟩, ?_⟩
  rw [hc h, hnil]
  constructor
  · rintro ⟨⟨h1, h2⟩, hnot⟩
    omega
  · rintro (rfl | rfl)
    · exact ⟨⟨by omega, by omega⟩, by omega⟩
    · exact ⟨⟨by omega, by omega⟩, by omega⟩

/-- Witness for C9 at the boundary input h equal to low. -/
theorem hashrange_contains_vs_hashed_bricks_witness :
    hashrange_contains_hash 10 20 10 = true :=
  (hashrange_contains_vs_hashed_bricks 10 20 10 (strL "server1:/bricks/b1")
    (by decide)).2.1

/-- C10: when the hashed owner list of an entry is empty, the source's
exists_on_hashed_bricks is vacuously True so run_hashed_bricks_test cannot
raise, whatever the existence oracle answers. -/
theorem empty_hashed_bricks_vacuous (file_exists_o : List Char → List Char → Bool)
    (h : Nat) (bricks : List ResolvedBrickDir) (fqpath : List Char)
    (hempty : hashed_bricks h bricks = []) :
    exists_on_hashed_bricks file_exists_o h bricks = true ∧
    run_hashed_bricks_test fqpath (exists_on_hashed_bricks file_exists_o h bricks) =
      .ok true := by
  have hx : exists_on_hashed_bricks file_exists_o h bricks = true := by
    simp [exists_on_hashed_bricks, hempty]
  refine ⟨hx, ?_⟩
  rw [hx]
  rfl

/-- Witness for C10: a hash landing in a hole, with a universally failing
existence oracle, still passes the hashed-bricks test. -/
theorem empty_hashed_bricks_vacuous_witness :
    exists_on_hashed_bricks (fun _ _ => false) 20 holeBricks = true ∧
    run_hashed_bricks_test (strL "/mnt/g/f1")
      (exists_on_hashed_bricks (fun _ _ => false) 20 holeBricks) = .ok true :=
  empty_hashed_bricks_vacuous (fun _ _ => false) 20 holeBricks (strL "/mnt/g/f1")
    (by decide)

/-- C2 counterexample: a raw value with only 4 trailing hex characters is
silently decoded into a pair (both halves read from the same 4 characters)
instead of failing; no MalformedRange error exists in the code. -/
theorem get_hashrange_short_hex_cex :
    get_hashrange 0 (strL "abcd") = .ok (some (43981, 43981)) := by rfl

/-- C2 amended: when the command succeeds and the raw value is a nonempty
all-hex string shorter than 16 characters, get_hashrange silently returns
the pair decoded from those fewer characters (first up-to-8 as low, last
up-to-8 as high); non-hex content raises a plain Python ValueError from the
int conversion, not a MalformedRange error. -/
theorem get_hashrange_short_hex_silent :
    (∀ rout : List Char, rout ≠ [] → rout.length < 16 →
      (∀ c ∈ rout, isHexDigitB c = true) →
      get_hashrange 0 rout =
        .ok (some (hexVal (rout.take 8), hexVal (takeLast 8 rout)))) ∧
    get_hashrange 0 (strL "zzzz") = .error PyErr.valueError := by
  constructor
  · intro rout hne hlen hhex
    have hstrip : pyStrip rout = rout :=
      pyStrip_eq_self rout (fun c hc => isPySpace_eq_false_of_hex c (hhex c hc))
    have h16 : takeLast 16 rout = rout := takeLast_of_le 16 rout (by omega)
    have htake : hexParse? (rout.take 8) = some (hexVal (rout.take 8)) := by
      apply hexParse?_eq_some
      · cases rout with
        | nil => exact absurd rfl hne
        | cons a t => simp
      · intro c hc
        exact hhex c (List.take_subset 8 rout hc)
    have hlast : hexParse? (takeLast 8 rout) = some (hexVal (takeLast 8 rout)) := by
      apply hexParse?_eq_some
      · exact takeLast_ne_nil 8 rout (by omega) hne
      · intro c hc
        exact hhex c (mem_takeLast 8 rout c hc)
    simp only [get_hashrange, hstrip, h16]
    rw [if_pos trivial, htake, hlast]
  · rfl

/-- Witness for C2: the two-character all-hex value ff decodes silently to
the pair (255, 255). -/
theorem get_hashrange_short_hex_witness :
    get_hashrange 0 (strL "ff") = .ok (some (255, 255)) := by
  have h := get_hashrange_short_hex_silent.1 (strL "ff") (by decide) (by decide)
    (by decide)
  rw [h]
  rfl

/-- C6: for a raw value with no surrounding whitespace ending in at least 16
hex characters, get_hashrange decodes low from the first 8 of the trailing
16 characters and high from the last 8, and both words are below 2 to the
32. -/
theorem get_hashrange_trailing16 (rout : List Char)
    (hstrip : pyStrip rout = rout)
    (hlen : 16 ≤ rout.length)
    (hhex : ∀ c ∈ takeLast 16 rout, isHexDigitB c = true) :
    get_hashrange 0 rout =
      .ok (some (hexVal ((takeLast 16 rout).take 8), hexVal (takeLast 8 rout))) ∧
    hexVal ((takeLast 16 rout).take 8) < 2 ^ 32 ∧
    hexVal (takeLast 8 rout) < 2 ^ 32 := by
  have hlen16 : (takeLast 16 rout).length = 16 := takeLast_length 16 rout hlen
  have h88 : takeLast 8 (takeLast 16 rout) = takeLast 8 rout :=
    takeLast_takeLast 8 16 rout (by omega) hlen
  have htake : hexParse? ((takeLast 16 rout).take 8) =
      some (hexVal ((takeLast 16 rout).take 8)) := by
    apply hexParse?_eq_some
    · intro hnil
      have hl := congrArg List.length hnil
      rw [List.length_take, hlen16] at hl
      simp at hl
    · intro c hc
      exact hhex c (List.take_subset 8 _ hc)
  have hlast : hexParse? (takeLast 8 rout) = some (hexVal (takeLast 8 rout)) := by
    apply hexParse?_eq_some
    · apply takeLast_ne_nil 8 rout (by omega)
      intro hnil
      rw [hnil] at hlen
      simp at hlen
    · intro c hc
      rw [← h88] at hc
      exact hhex c (mem_takeLast 8 _ c hc)
  refine ⟨?_, ?_, ?_⟩
  · simp only [get_hashrange, hstrip, h88]
    rw [if_pos trivial, htake, hlast]
  · have hb := hexVal_lt ((takeLast 16 rout).take 8)
    rw [List.length_take, hlen16] at hb
    calc hexVal ((takeLast 16 rout).take 8) < 16 ^ min 8 16 := hb
      _ = 2 ^ 32 := by norm_num
  · have hb := hexVal_lt (takeLast 8 rout)
    rw [takeLast_length 8 rout (by omega)] at hb
    calc hexVal (takeLast 8 rout) < 16 ^ 8 := hb
      _ = 2 ^ 32 := by norm_num

/-- Witness for C6: a 16-character hex value decodes to low 10 and high 255,
through the theorem above. -/
theorem get_hashrange_trailing16_witness :
    get_hashrange 0 (strL "0000000a000000ff") = .ok (some (10, 255)) := by
  have h := (get_hashrange_trailing16 (strL "0000000a000000ff") (by decide)
    (by decide) (by decide)).1
  rw [h]
  rfl

/-- C7 counterexample: a failing remote fetch makes the hashrange property
raise a generic TypeError from subscripting None, not any MetadataUnavailable
error (no such error exists in the code). -/
theorem brickdir_fetch_failure_cex :
    brickdir_hashrange (fun _ => (1, [])) brickDirInit = .error PyErr.typeError := by
  rfl

/-- C7 amended: whenever the remote getfattr command fails (nonzero return
code) on a BrickDir whose cache is unset, get_hashrange returns None and the
hashrange resolution fails with the TypeError raised by subscripting None in
BrickDir._get_hashrange. -/
theorem brickdir_fetch_failure_typeerror (fetch : Nat → Nat × List Char)
    (s : BrickDirState) (hcache : s.hashrange = none)
    (hfail : (fetch s.fetches).1 ≠ 0) :
    brickdir_hashrange fetch s = .error PyErr.typeError := by
  unfold brickdir_hashrange
  rw [hcache]
  simp [brickdir_get_hashrange, get_hashrange, hfail]

/-- Witness for C7 at a concrete failing fetch on a fresh BrickDir. -/
theorem brickdir_fetch_failure_witness :
    brickdir_hashrange (fun _ => (1, strL "some error text")) brickDirInit =
      .error PyErr.typeError :=
  brickdir_fetch_failure_typeerror (fun _ => (1, strL "some error text"))
    brickDirInit rfl (by decide)

/-- C8: the first access of the hashrange property performs the single
remote fetch, a second access returns the same cached pair with no further
fetch, and resync_hashrange clears the three cached fields and re-fetches,
after which accesses return the fresh pair from the cache. -/
theorem brickdir_hashrange_fetch_once (fetch : Nat → Nat × List Char)
    (l h l2 h2 : Nat)
    (h0 : get_hashrange (fetch 0).1 (fetch 0).2 = .ok (some (l, h)))
    (h1 : get_hashrange (fetch 1).1 (fetch 1).2 = .ok (some (l2, h2))) :
    brickdir_hashrange fetch brickDirInit =
      .ok (brickDirResolved l h 1, (some l, some h)) ∧
    brickdir_hashrange fetch (brickDirResolved l h 1) =
      .ok (brickDirResolved l h 1, (some l, some h)) ∧
    resync_hashrange fetch (brickDirResolved l h 1) = .ok (brickDirResolved l2 h2 2) ∧
    brickdir_hashrange fetch (brickDirResolved l2 h2 2) =
      .ok (brickDirResolved l2 h2 2, (some l2, some h2)) := by
  refine ⟨?_, ?_, ?_, ?_⟩
  · simp [brickdir_hashrange, brickdir_get_hashrange, brickDirInit, brickDirResolved, h0]
  · simp [brickdir_hashrange, brickDirResolved]
  · simp [resync_hashrange, brickdir_get_hashrange, brickDirResolved, h1]
  · simp [brickdir_hashrange, brickDirResolved]

/-- Witness for C8 with the concrete oracle cFetch: first fetch yields
(1, 255), the resynced fetch yields (2, 170). -/
theorem brickdir_hashrange_fetch_once_witness :
    brickdir_hashrange cFetch brickDirInit =
      .ok (brickDirResolved 1 255 1, (some 1, some 255)) ∧
    brickdir_hashrange cFetch (brickDirResolved 1 255 1) =
      .ok (brickDirResolved 1 255 1, (some 1, some 255)) ∧
    resync_hashrange cFetch (brickDirResolved 1 255 1) = .ok (brickDirResolved 2 170 2) ∧
    brickdir_hashrange cFetch (brickDirResolved 2 170 2) =
      .ok (brickDirResolved 2 170 2, (some 2, some 170)) :=
  brickdir_hashrange_fetch_once cFetch 1 255 2 170 (by rfl) (by rfl)

/-- C5 counterexample: two layouts with different hole diagnostics raise the
identical completeness exception, so the raised failure cannot bundle the
hole/overlap diagnostics; it carries only the fixed path message. -/
theorem run_layout_tests_no_diagnostics_cex :
    layoutA.holes ≠ layoutB.holes ∧
    run_layout_tests (strL "/d") layoutA TEST_LAYOUT_IS_COMPLETE =
      run_layout_tests (strL "/d") layoutB TEST_LAYOUT_IS_COMPLETE := by
  constructor
  · decide
  · rfl

/-- C5 amended: run_layout_tests raises the completeness exception exactly
when the completeness bit is set and the layout is incomplete (checked
first), otherwise raises the balance exception exactly when the balance bit
is set and the layout is unbalanced, and otherwise returns True; the raised
exceptions carry only a message naming the path. -/
theorem run_layout_tests_characterization (fqpath : List Char) (layout : Layout)
    (test_type : Nat) :
    (run_layout_tests fqpath layout test_type =
        .error (.layoutIsNotComplete (layoutNotCompleteMsg fqpath)) ↔
      (test_type &&& TEST_LAYOUT_IS_COMPLETE ≠ 0 ∧ layout.is_complete = false)) ∧
    (run_layout_tests fqpath layout test_type =
        .error (.layoutIsNotBalanced (layoutNotBalancedMsg fqpath)) ↔
      (¬(test_type &&& TEST_LAYOUT_IS_COMPLETE ≠ 0 ∧ layout.is_complete = false) ∧
        (test_type &&& TEST_LAYOUT_IS_BALANCED ≠ 0 ∧ layout.is_balanced = false))) ∧
    (run_layout_tests fqpath layout test_type = .ok true ↔
      (¬(test_type &&& TEST_LAYOUT_IS_COMPLETE ≠ 0 ∧ layout.is_complete = false) ∧
        ¬(test_type &&& TEST_LAYOUT_IS_BALANCED ≠ 0 ∧ layout.is_balanced = false))) := by
  have e1 : (test_type &&& TEST_LAYOUT_IS_COMPLETE != 0 && !layout.is_complete) = true ↔
      (test_type &&& TEST_LAYOUT_IS_COMPLETE ≠ 0 ∧ layout.is_complete = false) := by
    simp [Bool.and_eq_true, bne_iff_ne, Bool.not_eq_true']
  have e2 : (test_type &&& TEST_LAYOUT_IS_BALANCED != 0 && !layout.is_balanced) = true ↔
      (test_type &&& TEST_LAYOUT_IS_BALANCED ≠ 0 ∧ layout.is_balanced = false) := by
    simp [Bool.and_eq_true, bne_iff_ne, Bool.not_eq_true']
  unfold run_layout_tests
  by_cases h1 : (test_type &&& TEST_LAYOUT_IS_COMPLETE != 0 && !layout.is_complete) = true
  · rw [if_pos h1]
    have hp1 := e1.mp h1
    simp [hp1]
  · rw [if_neg h1]
    have hn1 : ¬(test_type &&& TEST_LAYOUT_IS_COMPLETE ≠ 0 ∧ layout.is_complete = false) :=
      fun hp => h1 (e1.mpr hp)
    by_cases h2 : (test_type &&& TEST_LAYOUT_IS_BALANCED != 0 && !layout.is_balanced) = true
    · rw [if_pos h2]
      have hp2 := e2.mp h2
      simp [hn1, hp2]
    · rw [if_neg h2]
      have hn2 : ¬(test_type &&& TEST_LAYOUT_IS_BALANCED ≠ 0 ∧ layout.is_balanced = false) :=
        fun hp => h2 (e2.mpr hp)
      simp [hn1, hn2]

/-- Witness for C5: with only the completeness bit set and an incomplete
layout, the completeness exception is raised. -/
theorem run_layout_tests_characterization_witness :
    run_layout_tests (strL "/w") layoutA TEST_LAYOUT_IS_COMPLETE =
      .error (.layoutIsNotComplete (layoutNotCompleteMsg (strL "/w"))) :=
  ((run_layout_tests_characterization (strL "/w") layoutA TEST_LAYOUT_IS_COMPLETE).1).mpr
    (by decide)

/-! Helper lemmas for the traversal claims. -/

theorem countE_append (e : Event) (l m : List Event) :
    countE e (l ++ m) = countE e l + countE e m := by
  induction l with
  | nil => simp [countE]
  | cons x t ih =>
      simp [countE, ih]
      omega

theorem lookupLayout_none_iff (c : List (List Char × Layout)) (p : List Char) :
    lookupLayout c p = none ↔ p ∉ c.map Prod.fst := by
  induction c with
  | nil => simp [lookupLayout]
  | cons kv rest ih =>
      obtain ⟨k, v⟩ := kv
      by_cases hk : k = p
      · subst hk
        simp [lookupLayout]
      · simp [lookupLayout, hk, ih, Ne.symm hk]

theorem layoutPhase_props (lo : List Char → Layout) (tt : Nat) (s : TravState)
    (parent : List Char) (hInv : cacheLogInv s) :
    cacheLogInv (layoutPhase lo tt s parent).1 ∧
    ((layoutPhase lo tt s parent).1.cache.map Prod.fst = s.cache.map Prod.fst ∨
      (layoutPhase lo tt s parent).1.cache.map Prod.fst =
        s.cache.map Prod.fst ++ [parent]) ∧
    ((layoutPhase lo tt s parent).2 = none →
      parent ∈ (layoutPhase lo tt s parent).1.cache.map Prod.fst) := by
  cases hl : lookupLayout s.cache parent with
  | some layout =>
      have heq : layoutPhase lo tt s parent = (s, none) := by
        simp only [layoutPhase, hl]
      rw [heq]
      refine ⟨hInv, Or.inl rfl, fun _ => ?_⟩
      by_contra hmem
      have hnone := (lookupLayout_none_iff s.cache parent).mpr hmem
      rw [hnone] at hl
      exact Option.noConfusion hl
  | none =>
      have hpnot : parent ∉ s.cache.map Prod.fst :=
        (lookupLayout_none_iff s.cache parent).mp hl
      have hinv1 : cacheLogInv
          ⟨s.cache ++ [(parent, lo parent)],
           s.log ++ [Event.constructLayout parent, Event.layoutTested parent]⟩ := by
        constructor
        · intro p
          show countE (Event.constructLayout p)
              (s.log ++ [Event.constructLayout parent, Event.layoutTested parent]) =
            if p ∈ (s.cache ++ [(parent, lo parent)]).map Prod.fst then 1 else 0
          rw [countE_append, hInv.1 p]
          by_cases hpp : p = parent
          · subst hpp
            simp [countE, hpnot]
          · have hmm : (p ∈ List.map Prod.fst (s.cache ++ [(parent, lo parent)])) ↔
                p ∈ List.map Prod.fst s.cache := by
              simp [hpp]
            simp [countE, hpp, Ne.symm hpp]
            rw [if_congr hmm rfl rfl]
        · intro p
          show countE (Event.layoutTested p)
              (s.log ++ [Event.constructLayout parent, Event.layoutTested parent]) =
            countE (Event.constructLayout p)
              (s.log ++ [Event.constructLayout parent, Event.layoutTested parent])
          rw [countE_append, countE_append, hInv.2 p]
          by_cases hpp : p = parent
          · subst hpp
            simp [countE]
          · simp [countE, hpp]
      have hkeys : (s.cache ++ [(parent, lo parent)]).map Prod.fst =
          s.cache.map Prod.fst ++ [parent] := by
        simp
      cases hrt : run_layout_tests parent (lo parent) tt with
      | ok b =>
          have heq : layoutPhase lo tt s parent =
              (⟨s.cache ++ [(parent, lo parent)],
                s.log ++ [Event.constructLayout parent, Event.layoutTested parent]⟩,
               none) := by
            simp only [layoutPhase, hl, hrt]
          rw [heq]
          refine ⟨hinv1, Or.inr hkeys, fun _ => ?_⟩
          show parent ∈ (s.cache ++ [(parent, lo parent)]).map Prod.fst
          rw [hkeys]
          simp
      | error e =>
          have heq : layoutPhase lo tt s parent =
              (⟨s.cache ++ [(parent, lo parent)],
                s.log ++ [Event.constructLayout parent, Event.layoutTested parent]⟩,
               some e) := by
            simp only [layoutPhase, hl, hrt]
          rw [heq]
          exact ⟨hinv1, Or.inr hkeys, fun hc => Option.noConfusion hc⟩

theorem hashPhase_props (ex : List Char → Bool) (tt : Nat) (s : TravState)
    (fq : List Char) (hInv : cacheLogInv s) :
    cacheLogInv (hashPhase ex tt s fq).1 ∧
    (hashPhase ex tt s fq).1.cache = s.cache := by
  have hinv2 : cacheLogInv ⟨s.cache, s.log ++ [Event.hashedTested fq]⟩ := by
    constructor
    · intro p
      show countE (Event.constructLayout p) (s.log ++ [Event.hashedTested fq]) =
        if p ∈ s.cache.map Prod.fst then 1 else 0
      rw [countE_append, hInv.1 p]
      simp [countE]
    · intro p
      show countE (Event.layoutTested p) (s.log ++ [Event.hashedTested fq]) =
        countE (Event.constructLayout p) (s.log ++ [Event.hashedTested fq])
      rw [countE_append, countE_append, hInv.2 p]
      simp [countE]
  by_cases hb : (tt &&& TEST_FILE_EXISTS_ON_HASHED_BRICKS != 0) = true
  · cases hrt : run_hashed_bricks_test fq (ex fq) with
    | ok b =>
        have heq : hashPhase ex tt s fq =
            (⟨s.cache, s.log ++ [Event.hashedTested fq]⟩, none) := by
          simp only [hashPhase, hb, if_true, hrt]
        rw [heq]
        exact ⟨hinv2, rfl⟩
    | error e =>
        have heq : hashPhase ex tt s fq =
            (⟨s.cache, s.log ++ [Event.hashedTested fq]⟩, some e) := by
          simp only [hashPhase, hb, if_true, hrt]
        rw [heq]
        exact ⟨hinv2, rfl⟩
  · have heq : hashPhase ex tt s fq = (s, none) := by
      simp only [hashPhase, if_neg hb]
    rw [heq]
    exact ⟨hInv, rfl⟩

theorem checkEntry_props (lo : List Char → Layout) (ex : List Char → Bool)
    (tt : Nat) (s : TravState) (fq : List Char) (hInv : cacheLogInv s) :
    cacheLogInv (checkEntry lo ex tt s fq).1 ∧
    ((checkEntry lo ex tt s fq).1.cache.map Prod.fst = s.cache.map Prod.fst ∨
      (checkEntry lo ex tt s fq).1.cache.map Prod.fst =
        s.cache.map Prod.fst ++ [pyDirname fq]) ∧
    ((checkEntry lo ex tt s fq).2 = none →
      pyDirname fq ∈ (checkEntry lo ex tt s fq).1.cache.map Prod.fst) := by
  obtain ⟨hL1, hL2, hL3⟩ := layoutPhase_props lo tt s (pyDirname fq) hInv
  cases hlp : layoutPhase lo tt s (pyDirname fq) with
  | mk s1 exc =>
      rw [hlp] at hL1 hL2 hL3
      cases exc with
      | some e =>
          have heq : checkEntry lo ex tt s fq = (s1, some e) := by
            simp only [checkEntry, hlp]
          rw [heq]
          exact ⟨hL1, hL2, fun hc => Option.noConfusion hc⟩
      | none =>
          have heq : checkEntry lo ex tt s fq = hashPhase ex tt s1 fq := by
            simp only [checkEntry, hlp]
          rw [heq]
          obtain ⟨hH1, hH2⟩ := hashPhase_props ex tt s1 fq hL1
          refine ⟨hH1, ?_, fun _ => ?_⟩
          · rw [hH2]
            exact hL2
          · rw [hH2]
            exact hL3 rfl

theorem processEntries_props (lo : List Char → Layout) (ex : List Char → Bool)
    (tt : Nat) :
    ∀ (entries : List (List Char)) (s : TravState), cacheLogInv s →
      cacheLogInv (processEntries lo ex tt s entries).1 ∧
      ((processEntries lo ex tt s entries).2 = none →
        ∀ p, p ∈ (processEntries lo ex tt s entries).1.cache.map Prod.fst ↔
          (p ∈ s.cache.map Prod.fst ∨ p ∈ entries.map pyDirname)) := by
  intro entries
  induction entries with
  | nil =>
      intro s hInv
      refine ⟨hInv, fun _ p => ?_⟩
      simp [processEntries]
  | cons e rest ih =>
      intro s hInv
      obtain ⟨hC1, hC2, hC3⟩ := checkEntry_props lo ex tt s e hInv
      cases hce : checkEntry lo ex tt s e with
      | mk s1 exc =>
          rw [hce] at hC1 hC2 hC3
          cases exc with
          | some ex0 =>
              have heq : processEntries lo ex tt s (e :: rest) = (s1, some ex0) := by
                simp only [processEntries, hce]
              rw [heq]
              exact ⟨hC1, fun hc => Option.noConfusion hc⟩
          | none =>
              have heq : processEntries lo ex tt s (e :: rest) =
                  processEntries lo ex tt s1 rest := by
                simp only [processEntries, hce]
              rw [heq]
              obtain ⟨hR1, hR2⟩ := ih s1 hC1
              refine ⟨hR1, fun hnone p => ?_⟩
              rw [hR2 hnone p]
              have hmem1 : pyDirname e ∈ s1.cache.map Prod.fst := hC3 rfl
              cases hC2 with
              | inl hsame =>
                  rw [hsame] at hmem1 ⊢
                  simp only [List.map_cons, List.mem_cons]
                  constructor
                  · rintro (h | h)
                    · exact Or.inl h
                    · exact Or.inr (Or.inr h)
                  · rintro (h | rfl | h)
                    · exact Or.inl h
                    · exact Or.inl hmem1
                    · exact Or.inr h
              | inr hext =>
                  rw [hext]
                  simp only [List.map_cons, List.mem_cons, List.mem_append,
                    List.mem_singleton]
                  tauto

theorem processEntries_error_split (lo : List Char → Layout) (ex : List Char → Bool)
    (tt : Nat) :
    ∀ (entries : List (List Char)) (s sFin : TravState) (e : GlusterExc),
      processEntries lo ex tt s entries = (sFin, some e) →
      ∃ pre x post sMid, entries = pre ++ x :: post ∧
        processEntries lo ex tt s pre = (sMid, none) ∧
        checkEntry lo ex tt sMid x = (sFin, some e) := by
  intro entries
  induction entries with
  | nil =>
      intro s sFin e h
      simp [processEntries] at h
  | cons e0 rest ih =>
      intro s sFin e h
      cases hce : checkEntry lo ex tt s e0 with
      | mk s1 exc =>
          cases exc with
          | some ex1 =>
              have heq : processEntries lo ex tt s (e0 :: rest) = (s1, some ex1) := by
                simp only [processEntries, hce]
              rw [heq] at h
              injection h with h1 h2
              subst h1
              injection h2 with h3
              subst h3
              exact ⟨[], e0, rest, s, rfl, rfl, hce⟩
          | none =>
              have heq : processEntries lo ex tt s (e0 :: rest) =
                  processEntries lo ex tt s1 rest := by
                simp only [processEntries, hce]
              rw [heq] at h
              obtain ⟨pre, x, post, sMid, hsplit, hpre, hcheck⟩ := ih s1 sFin e h
              refine ⟨e0 :: pre, x, post, sMid, ?_, ?_, hcheck⟩
              · rw [hsplit]
                rfl
              · have hstep : processEntries lo ex tt s (e0 :: pre) =
                    processEntries lo ex tt s1 pre := by
                  simp only [processEntries, hce]
                rw [hstep, hpre]

/-- C3: within one invocation of validate_files_in_dir, a Layout is
constructed at most once per parent path, run_layout_tests runs exactly as
often as a Layout is constructed for that parent, and on a completed
successful run each parent of an encountered entry was constructed (and
layout-tested) exactly once, every sibling entry sharing the cached
instance; the cache starts empty at every invocation and is not part of the
returned value. -/
theorem validate_layout_cache_once (layoutOf : List Char → Layout)
    (existsOnHashed : List Char → Bool) (walk : List WalkTriple)
    (file_type test_type : Nat) (res : Except GlusterExc Bool) (log : List Event)
    (hrun : validate_files_in_dir layoutOf existsOnHashed walk file_type test_type =
      (res, log)) :
    (∀ p, countE (Event.constructLayout p) log ≤ 1) ∧
    (∀ p, countE (Event.layoutTested p) log = countE (Event.constructLayout p) log) ∧
    (res = .ok true →
      ∀ p, countE (Event.constructLayout p) log =
        if p ∈ (walkEntries file_type walk).map pyDirname then 1 else 0) := by
  have hInit : cacheLogInv ⟨[], []⟩ := by
    constructor
    · intro p
      simp [countE]
    · intro p
      simp [countE]
  obtain ⟨hP1, hP2⟩ := processEntries_props layoutOf existsOnHashed test_type
    (walkEntries file_type walk) ⟨[], []⟩ hInit
  cases hp : processEntries layoutOf existsOnHashed test_type ⟨[], []⟩
      (walkEntries file_type walk) with
  | mk sFin exc =>
      rw [hp] at hP1 hP2
      cases exc with
      | none =>
          have hval : validate_files_in_dir layoutOf existsOnHashed walk file_type
              test_type = (.ok true, sFin.log) := by
            unfold validate_files_in_dir
            rw [hp]
          rw [hval] at hrun
          injection hrun with hres hlog
          subst hlog
          refine ⟨fun p => ?_, fun p => hP1.2 p, fun _ p => ?_⟩
          · rw [hP1.1 p]
            split
            · omega
            · omega
          · rw [hP1.1 p]
            have hiff := hP2 rfl p
            simp only [List.map_nil, List.not_mem_nil, false_or] at hiff
            rw [if_congr hiff rfl rfl]
      | some e =>
          have hval : validate_files_in_dir layoutOf existsOnHashed walk file_type
              test_type = (.error e, sFin.log) := by
            unfold validate_files_in_dir
            rw [hp]
          rw [hval] at hrun
          injection hrun with hres hlog
          subst hlog
          refine ⟨fun p => ?_, fun p => hP1.2 p, fun hok p => ?_⟩
          · rw [hP1.1 p]
            split
            · omega
            · omega
          · exfalso
            rw [← hres] at hok
            exact Except.noConfusion hok

/-- Witness for C3: a successful run over one triple with three sibling
entries constructs the layout of their shared parent exactly once. -/
theorem validate_layout_cache_once_witness :
    countE (Event.constructLayout (strL "/r"))
      (validate_files_in_dir cLayoutGood cAllExist cWalkSib FILETYPE_ALL TEST_ALL).2 = 1 := by
  have h := validate_layout_cache_once cLayoutGood cAllExist cWalkSib FILETYPE_ALL
    TEST_ALL
    (validate_files_in_dir cLayoutGood cAllExist cWalkSib FILETYPE_ALL TEST_ALL).1
    (validate_files_in_dir cLayoutGood cAllExist cWalkSib FILETYPE_ALL TEST_ALL).2 rfl
  rw [h.2.2 (by rfl) (strL "/r")]
  decide

/-- C4 amended: validate_files_in_dir supports only the fail-fast policy:
whenever it surfaces an exception, that exception was raised at the first
violating entry of the walk, the entries before it were processed without
violation, and no entry after it was processed (its log is exactly the log
up to the violating entry); there is no aggregate mode. -/
theorem validate_fail_fast (layoutOf : List Char → Layout)
    (existsOnHashed : List Char → Bool) (walk : List WalkTriple)
    (file_type test_type : Nat) (e : GlusterExc) (log : List Event)
    (hrun : validate_files_in_dir layoutOf existsOnHashed walk file_type test_type =
      (.error e, log)) :
    ∃ pre x post sMid sFin,
      walkEntries file_type walk = pre ++ x :: post ∧
      processEntries layoutOf existsOnHashed test_type ⟨[], []⟩ pre = (sMid, none) ∧
      checkEntry layoutOf existsOnHashed test_type sMid x = (sFin, some e) ∧
      log = sFin.log := by
  cases hp : processEntries layoutOf existsOnHashed test_type ⟨[], []⟩
      (walkEntries file_type walk) with
  | mk sF exc =>
      cases exc with
      | none =>
          have hval : validate_files_in_dir layoutOf existsOnHashed walk file_type
              test_type = (.ok true, sF.log) := by
            unfold validate_files_in_dir
            rw [hp]
          rw [hval] at hrun
          injection hrun with h1 h2
          exact Except.noConfusion h1
      | some e2 =>
          have hval : validate_files_in_dir layoutOf existsOnHashed walk file_type
              test_type = (.error e2, sF.log) := by
            unfold validate_files_in_dir
            rw [hp]
          rw [hval] at hrun
          injection hrun with h1 h2
          injection h1 with h3
          subst h3
          subst h2
          obtain ⟨pre, x, post, sMid, hs, hpre, hch⟩ :=
            processEntries_error_split layoutOf existsOnHashed test_type
              (walkEntries file_type walk) ⟨[], []⟩ sF e2 hp
          exact ⟨pre, x, post, sMid, sF, hs, hpre, hch, rfl⟩

/-- Witness for C4: on the two-violation walk, the surfaced exception is the
one of the first entry, by the theorem above. -/
theorem validate_fail_fast_witness :
    ∃ pre x post sMid sFin,
      walkEntries FILETYPE_ALL cWalkTwo = pre ++ x :: post ∧
      processEntries cLayoutBad cAllExist TEST_ALL ⟨[], []⟩ pre = (sMid, none) ∧
      checkEntry cLayoutBad cAllExist TEST_ALL sMid x =
        (sFin, some (.layoutIsNotComplete (layoutNotCompleteMsg (strL "/r")))) ∧
      (validate_files_in_dir cLayoutBad cAllExist cWalkTwo FILETYPE_ALL TEST_ALL).2 =
        sFin.log :=
  validate_fail_fast cLayoutBad cAllExist cWalkTwo FILETYPE_ALL TEST_ALL
    (.layoutIsNotComplete (layoutNotCompleteMsg (strL "/r")))
    (validate_files_in_dir cLayoutBad cAllExist cWalkTwo FILETYPE_ALL TEST_ALL).2 rfl

/-- C4 counterexample: on a walk whose two directories both have incomplete
layouts, with every check enabled, validate_files_in_dir aborts at the first
violation: it surfaces only the first exception and the second parent is
never constructed nor layout-tested, so no aggregate report of every
violation is ever produced. -/
theorem validate_no_aggregate_cex :
    (validate_files_in_dir cLayoutBad cAllExist cWalkTwo FILETYPE_ALL TEST_ALL).1 =
      .error (.layoutIsNotComplete (layoutNotCompleteMsg (strL "/r"))) ∧
    Event.constructLayout (strL "/r/d1") ∉
      (validate_files_in_dir cLayoutBad cAllExist cWalkTwo FILETYPE_ALL TEST_ALL).2 ∧
    Event.layoutTested (strL "/r/d1") ∉
      (validate_files_in_dir cLayoutBad cAllExist cWalkTwo FILETYPE_ALL TEST_ALL).2 := by
  refine ⟨rfl, ?_, ?_⟩
  · decide
  · decide
